import Mathlib

/-!
Verification development for the vscode-c3 extension's binary lifecycle
subsystem (version resolution, artifact install, process supervision, and
the formatter bridge).

The TypeScript sources are embedded shallowly:
* the `semver` npm package's `parse` / `compare` / `rcompare` / `gte`
  operations are modelled on the `MAJOR.MINOR.PATCH[-prerelease]` grammar
  used by the release catalog (build metadata, the optional leading `v`
  and loose parsing are outside the catalog grammar and not modelled);
* `Array.prototype.sort(comparator)` is modelled as insertion sort — any
  comparison sort is a faithful model for a consistent comparator, and a
  comparator that throws is modelled in the `Except` monad;
* subprocess interaction is modelled by explicit outcome values
  (spawn error vs. close with an exit code and accumulated streams);
* the module-level `client` handle and the settings store are modelled as
  explicit state records threaded through the transition functions.
-/

namespace VscodeC3

/-! ## Ordering infrastructure

`lexCompare` is elementwise lexicographic comparison of lists, the shape
used both by JS string comparison (`<`/`>` on code units) and by semver
prerelease comparison. -/

def lexCompare (cmp : α → α → Ordering) : List α → List α → Ordering
  | [], [] => .eq
  | [], _ :: _ => .lt
  | _ :: _, [] => .gt
  | a :: as, b :: bs =>
    match cmp a b with
    | .eq => lexCompare cmp as bs
    | o => o

/-- A comparison function that is a lawful total order on `α`:
`eq` characterises equality, it is antisymmetric under `Ordering.swap`,
and its strict part is transitive. -/
structure LawfulCmp (cmp : α → α → Ordering) : Prop where
  eq_iff : ∀ a b, cmp a b = .eq ↔ a = b
  swap : ∀ a b, cmp b a = (cmp a b).swap
  lt_trans : ∀ a b c, cmp a b = .lt → cmp b c = .lt → cmp a c = .lt

theorem LawfulCmp.refl {cmp : α → α → Ordering} (h : LawfulCmp cmp) (a : α) :
    cmp a a = .eq := (h.eq_iff a a).mpr rfl

theorem LawfulCmp.gt_iff {cmp : α → α → Ordering} (h : LawfulCmp cmp) (a b : α) :
    cmp a b = .gt ↔ cmp b a = .lt := by
  rw [h.swap a b]
  cases cmp a b <;> simp [Ordering.swap]

theorem lawfulCmp_nat : LawfulCmp (compare : Nat → Nat → Ordering) := by
  refine ⟨fun a b => Nat.compare_eq_eq, fun a b => ?_, fun a b c hab hbc => ?_⟩
  · rcases Nat.lt_trichotomy a b with h | h | h
    · rw [Nat.compare_eq_lt.mpr h, Nat.compare_eq_gt.mpr h]
      rfl
    · subst h
      rw [Nat.compare_eq_eq.mpr rfl]
      rfl
    · rw [Nat.compare_eq_gt.mpr h, Nat.compare_eq_lt.mpr h]
      rfl
  · exact Nat.compare_eq_lt.mpr
      (Nat.lt_trans (Nat.compare_eq_lt.mp hab) (Nat.compare_eq_lt.mp hbc))

/-- Comparison of characters by code point, the JS (and semver ASCII)
comparison of individual code units. -/
def charCmp (c d : Char) : Ordering := compare c.toNat d.toNat

theorem lawfulCmp_charCmp : LawfulCmp charCmp := by
  refine ⟨fun a b => ?_, fun a b => lawfulCmp_nat.swap _ _,
    fun a b c hab hbc => lawfulCmp_nat.lt_trans _ _ _ hab hbc⟩
  rw [show charCmp a b = compare a.toNat b.toNat from rfl, Nat.compare_eq_eq]
  exact ⟨fun h => Char.ext (UInt32.ext h), fun h => by rw [h]⟩

theorem lawfulCmp_lexCompare {cmp : α → α → Ordering} (h : LawfulCmp cmp) :
    LawfulCmp (lexCompare cmp) := by
  refine ⟨?_, ?_, ?_⟩
  · intro a
    induction a with
    | nil => intro b; cases b <;> simp [lexCompare]
    | cons x xs ih =>
      intro b
      cases b with
      | nil => simp [lexCompare]
      | cons y ys =>
        simp only [lexCompare]
        rcases hxy : cmp x y with _ | _ | _ <;> dsimp only
        · constructor
          · intro hc; cases hc
          · intro hc
            injection hc with h1 h2
            rw [h1, h.refl] at hxy
            cases hxy
        · have hx : x = y := (h.eq_iff x y).mp hxy
          rw [ih ys]
          subst hx
          simp
        · constructor
          · intro hc; cases hc
          · intro hc
            injection hc with h1 h2
            rw [h1, h.refl] at hxy
            cases hxy
  · intro a
    induction a with
    | nil => intro b; cases b <;> simp [lexCompare, Ordering.swap]
    | cons x xs ih =>
      intro b
      cases b with
      | nil => simp [lexCompare, Ordering.swap]
      | cons y ys =>
        simp only [lexCompare]
        rw [h.swap x y]
        rcases cmp x y with _ | _ | _ <;> simp [Ordering.swap, ih]
  · intro a
    induction a with
    | nil =>
      intro b c hab hbc
      cases b with
      | nil => simp [lexCompare] at hab
      | cons y ys =>
        cases c with
        | nil => simp [lexCompare] at hbc
        | cons z zs => simp [lexCompare]
    | cons x xs ih =>
      intro b c hab hbc
      cases b with
      | nil => simp [lexCompare] at hab
      | cons y ys =>
        cases c with
        | nil => simp [lexCompare] at hbc
        | cons z zs =>
          simp only [lexCompare] at hab hbc ⊢
          rcases hxy : cmp x y with _ | _ | _ <;> rw [hxy] at hab
          · rcases hyz : cmp y z with _ | _ | _ <;> rw [hyz] at hbc
            · rw [h.lt_trans x y z hxy hyz]
            · rw [← (h.eq_iff y z).mp hyz, hxy]
            · cases hbc
          · rcases hyz : cmp y z with _ | _ | _ <;> rw [hyz] at hbc
            · rw [(h.eq_iff x y).mp hxy, hyz]
            · have hxz : cmp x z = .eq := by
                rw [(h.eq_iff x y).mp hxy, hyz]
              rw [hxz]
              exact ih ys zs hab hbc
            · cases hbc
          · cases hab

/-- A comparison function usable as a sort key position: reflexive on `eq`,
antisymmetric under `Ordering.swap`, transitive on the strict part, and
`eq` results substitute on the left.  Unlike `LawfulCmp`, `eq` need not
characterise equality, so lexicographic chaining composes. -/
structure LawfulKeyCmp (cmp : α → α → Ordering) : Prop where
  refl : ∀ a, cmp a a = .eq
  swap : ∀ a b, cmp b a = (cmp a b).swap
  lt_trans : ∀ a b c, cmp a b = .lt → cmp b c = .lt → cmp a c = .lt
  eq_left : ∀ a b c, cmp a b = .eq → cmp a c = cmp b c

theorem ordering_swap_inj {o p : Ordering} (h : o.swap = p.swap) : o = p := by
  cases o <;> cases p <;> first | rfl | cases h

theorem LawfulKeyCmp.eq_right {cmp : α → α → Ordering} (h : LawfulKeyCmp cmp)
    (a b c : α) (hbc : cmp b c = .eq) : cmp a b = cmp a c := by
  have hcb : cmp c b = .eq := by
    have hsw := h.swap b c
    rw [hbc] at hsw
    exact hsw
  have h2 := h.eq_left c b a hcb
  apply ordering_swap_inj
  rw [← h.swap a b, ← h.swap a c]
  exact h2.symm

/-- Comparing through a projection with a lawful base comparison gives a
lawful key comparison. -/
theorem lawfulKeyCmp_byKey (f : α → β) {cmp : β → β → Ordering}
    (h : LawfulCmp cmp) : LawfulKeyCmp (fun a b => cmp (f a) (f b)) := by
  refine ⟨fun a => (h.eq_iff _ _).mpr rfl, fun a b => h.swap _ _,
    fun a b c hab hbc => h.lt_trans _ _ _ hab hbc, fun a b c hab => ?_⟩
  rw [(h.eq_iff (f a) (f b)).mp hab]

/-- Lexicographic composition: compare with `c1` first, breaking ties
with `c2`. This is the shape of semver precedence
(major, then minor, then patch, then prerelease). -/
def cmpThen (c1 c2 : α → α → Ordering) (a b : α) : Ordering :=
  match c1 a b with
  | .eq => c2 a b
  | o => o

theorem lawfulKeyCmp_cmpThen {c1 c2 : α → α → Ordering}
    (h1 : LawfulKeyCmp c1) (h2 : LawfulKeyCmp c2) :
    LawfulKeyCmp (cmpThen c1 c2) := by
  refine ⟨fun a => ?_, fun a b => ?_, fun a b c hab hbc => ?_, fun a b c hab => ?_⟩
  · unfold cmpThen
    rw [h1.refl a]
    exact h2.refl a
  · unfold cmpThen
    rw [h1.swap a b]
    rcases c1 a b with _ | _ | _
    · rfl
    · exact h2.swap a b
    · rfl
  · unfold cmpThen at hab hbc ⊢
    rcases e1 : c1 a b with _ | _ | _ <;> rw [e1] at hab
    · rcases e2 : c1 b c with _ | _ | _ <;> rw [e2] at hbc
      · have e3 := h1.lt_trans a b c e1 e2
        rw [e3]
      · have e3 : c1 a c = .lt := by
          rw [← h1.eq_right a b c e2]
          exact e1
        rw [e3]
      · exact Ordering.noConfusion hbc
    · rcases e2 : c1 b c with _ | _ | _ <;> rw [e2] at hbc
      · have e3 : c1 a c = .lt := by
          rw [h1.eq_left a b c e1]
          exact e2
        rw [e3]
      · have e3 : c1 a c = .eq := by
          rw [h1.eq_left a b c e1]
          exact e2
        rw [e3]
        exact h2.lt_trans a b c hab hbc
      · exact Ordering.noConfusion hbc
    · exact Ordering.noConfusion hab
  · unfold cmpThen at hab ⊢
    rcases e1 : c1 a b with _ | _ | _ <;> rw [e1] at hab
    · exact Ordering.noConfusion hab
    · rw [h1.eq_left a b c e1, h2.eq_left a b c hab]
    · exact Ordering.noConfusion hab

/-! ## The semver data model

The repository manipulates versions through the `semver` npm package:
`semver.parse` (installer.ts `getInstalledVersion`, `fetchLatestVersion`),
`semver.rcompare` (catalog sorting) and `semver.gte` (update decision).
A parsed version is `MAJOR.MINOR.PATCH` plus an optional dot-separated
prerelease; precedence compares the numeric triple and then the
prerelease (a version with a prerelease precedes the same triple without
one, numeric identifiers precede alphanumeric ones, and identifier lists
compare lexicographically with the shorter prefix first). -/

/-- A single prerelease identifier: numeric (`1`) or alphanumeric (`beta`). -/
inductive PreId where
  | num (n : Nat)
  | str (s : String)
deriving DecidableEq, Repr

/-- Precedence of prerelease identifiers (`semver.compareIdentifiers`):
numeric identifiers compare numerically and precede alphanumeric ones;
alphanumeric identifiers compare as ASCII strings. -/
def comparePreId : PreId → PreId → Ordering
  | .num a, .num b => compare a b
  | .num _, .str _ => .lt
  | .str _, .num _ => .gt
  | .str a, .str b => lexCompare charCmp a.data b.data

/-- Precedence of prerelease lists: no prerelease outranks any prerelease;
otherwise identifiers compare pairwise, a strict prefix comparing lower. -/
def comparePre : List PreId → List PreId → Ordering
  | [], [] => .eq
  | [], _ :: _ => .gt
  | _ :: _, [] => .lt
  | a :: as, b :: bs => lexCompare comparePreId (a :: as) (b :: bs)

/-- A parsed semantic version (`semver.SemVer`), restricted to the
`MAJOR.MINOR.PATCH[-prerelease]` grammar of the release catalog. -/
structure SemVer where
  major : Nat
  minor : Nat
  patch : Nat
  prerelease : List PreId
deriving DecidableEq, Repr

/-- Semver precedence (`semver.compare`): major, minor, patch, then
prerelease. -/
def semverCompare : SemVer → SemVer → Ordering :=
  cmpThen (fun a b => compare a.major b.major)
    (cmpThen (fun a b => compare a.minor b.minor)
      (cmpThen (fun a b => compare a.patch b.patch)
        (fun a b => comparePre a.prerelease b.prerelease)))

/-- `semver.gte a b`: `a` is at least `b` under semver precedence. -/
def semverGe (a b : SemVer) : Bool :=
  match semverCompare a b with
  | .lt => false
  | _ => true

/-- `semver.lt a b`: `a` is strictly below `b` under semver precedence. -/
def semverLt (a b : SemVer) : Bool :=
  match semverCompare a b with
  | .lt => true
  | _ => false

theorem lawfulCmp_comparePreId : LawfulCmp comparePreId := by
  have hs := lawfulCmp_lexCompare lawfulCmp_charCmp
  refine ⟨fun a b => ?_, fun a b => ?_, fun a b c hab hbc => ?_⟩
  · cases a with
    | num a => cases b with
      | num b =>
        show compare a b = .eq ↔ _
        rw [lawfulCmp_nat.eq_iff]
        constructor
        · intro hc; rw [hc]
        · intro hc; injection hc
      | str b =>
        constructor
        · intro hc; exact Ordering.noConfusion hc
        · intro hc; exact PreId.noConfusion hc
    | str a => cases b with
      | num b =>
        constructor
        · intro hc; exact Ordering.noConfusion hc
        · intro hc; exact PreId.noConfusion hc
      | str b =>
        show lexCompare charCmp a.data b.data = .eq ↔ _
        rw [hs.eq_iff]
        constructor
        · intro hc; rw [String.ext hc]
        · intro hc; injection hc with hc; rw [hc]
  · cases a with
    | num a => cases b with
      | num b => exact lawfulCmp_nat.swap a b
      | str b => rfl
    | str a => cases b with
      | num b => rfl
      | str b => exact hs.swap a.data b.data
  · cases a with
    | num a => cases b with
      | num b => cases c with
        | num c => exact lawfulCmp_nat.lt_trans a b c hab hbc
        | str c => rfl
      | str b => cases c with
        | num c => exact Ordering.noConfusion hbc
        | str c => rfl
    | str a => cases b with
      | num b => exact Ordering.noConfusion hab
      | str b => cases c with
        | num c => exact Ordering.noConfusion hbc
        | str c => exact hs.lt_trans a.data b.data c.data hab hbc

theorem lawfulCmp_comparePre : LawfulCmp comparePre := by
  have hl := lawfulCmp_lexCompare lawfulCmp_comparePreId
  refine ⟨fun a b => ?_, fun a b => ?_, fun a b c hab hbc => ?_⟩
  · cases a with
    | nil => cases b with
      | nil =>
        constructor
        · intro hc; rfl
        · intro hc; rfl
      | cons y ys =>
        constructor
        · intro hc; exact Ordering.noConfusion hc
        · intro hc; exact List.noConfusion hc
    | cons x xs => cases b with
      | nil =>
        constructor
        · intro hc; exact Ordering.noConfusion hc
        · intro hc; exact List.noConfusion hc
      | cons y ys => exact hl.eq_iff (x :: xs) (y :: ys)
  · cases a with
    | nil => cases b with
      | nil => rfl
      | cons y ys => rfl
    | cons x xs => cases b with
      | nil => rfl
      | cons y ys => exact hl.swap (x :: xs) (y :: ys)
  · cases a with
    | nil => cases b with
      | nil => exact Ordering.noConfusion hab
      | cons y ys => exact Ordering.noConfusion hab
    | cons x xs => cases b with
      | nil => cases c with
        | nil => exact Ordering.noConfusion hbc
        | cons z zs => exact Ordering.noConfusion hbc
      | cons y ys => cases c with
        | nil => rfl
        | cons z zs => exact hl.lt_trans (x :: xs) (y :: ys) (z :: zs) hab hbc

theorem lawfulKeyCmp_semverCompare : LawfulKeyCmp semverCompare := by
  refine lawfulKeyCmp_cmpThen (lawfulKeyCmp_byKey _ lawfulCmp_nat)
    (lawfulKeyCmp_cmpThen (lawfulKeyCmp_byKey _ lawfulCmp_nat)
      (lawfulKeyCmp_cmpThen (lawfulKeyCmp_byKey _ lawfulCmp_nat)
        (lawfulKeyCmp_byKey _ lawfulCmp_comparePre)))

theorem semverCompare_refl (v : SemVer) : semverCompare v v = .eq :=
  lawfulKeyCmp_semverCompare.refl v

theorem semverGe_refl (v : SemVer) : semverGe v v = true := by
  simp [semverGe, semverCompare_refl]

theorem semverGe_total (a b : SemVer) :
    semverGe a b = true ∨ semverGe b a = true := by
  rcases hab : semverCompare a b with _ | _ | _
  · right
    have hsw := lawfulKeyCmp_semverCompare.swap a b
    rw [hab] at hsw
    have h2 : semverCompare b a = .gt := hsw
    simp [semverGe, h2]
  · left; simp [semverGe, hab]
  · left; simp [semverGe, hab]

theorem semverGe_trans (a b c : SemVer) (hab : semverGe a b = true)
    (hbc : semverGe b c = true) : semverGe a c = true := by
  simp only [semverGe] at hab hbc ⊢
  rcases hac : semverCompare a c with _ | _ | _
  · exfalso
    rcases h1 : semverCompare a b with _ | _ | _ <;> rw [h1] at hab
    · exact Bool.noConfusion hab
    · have h3 := lawfulKeyCmp_semverCompare.eq_left a b c h1
      rw [hac] at h3
      rw [← h3] at hbc
      exact Bool.noConfusion hbc
    · have hsw := lawfulKeyCmp_semverCompare.swap a b
      rw [h1] at hsw
      have hba : semverCompare b a = .lt := hsw
      have h4 := lawfulKeyCmp_semverCompare.lt_trans b a c hba hac
      rw [h4] at hbc
      exact Bool.noConfusion hbc
  · rfl
  · rfl

theorem semverGe_false_iff_lt (a b : SemVer) :
    semverGe a b = false ↔ semverLt a b = true := by
  simp only [semverGe, semverLt]
  rcases semverCompare a b with _ | _ | _ <;> simp

/-! ## Parsing version strings

`semver.parse` of the strings appearing in the release catalog and in the
binaries' `--version` output: the input is trimmed, the `MAJOR.MINOR.PATCH`
core is split from an optional `-`-introduced dot-separated prerelease,
numeric components reject leading zeros, and prerelease identifiers are
ASCII alphanumerics or hyphens (all-digit identifiers are numeric).
Characters are handled on `String.data` so every function is structural. -/

/-- Split a character list on a separator, keeping empty groups
(like `String.prototype.split`). -/
def splitOnChar (sep : Char) : List Char → List (List Char)
  | [] => [[]]
  | c :: cs =>
    let r := splitOnChar sep cs
    if c = sep then [] :: r
    else
      match r with
      | [] => [[c]]
      | g :: gs => (c :: g) :: gs

/-- Numeric value of a digit list (most significant first). -/
def digitsToNat (cs : List Char) : Nat :=
  cs.foldl (fun acc c => acc * 10 + (c.toNat - 48)) 0

/-- Parse one of the `MAJOR`/`MINOR`/`PATCH` components: digits only,
no leading zero. -/
def parseNumericPart (cs : List Char) : Option Nat :=
  match cs with
  | [] => none
  | '0' :: _ :: _ => none
  | _ => if cs.all Char.isDigit then some (digitsToNat cs) else none

/-- Characters allowed in a prerelease identifier. -/
def isIdentChar (c : Char) : Bool := c.isDigit || c.isAlpha || c = '-'

/-- Parse one prerelease identifier: nonempty; all-digit identifiers are
numeric and reject leading zeros; otherwise ASCII alphanumeric/hyphen. -/
def parsePreIdent (cs : List Char) : Option PreId :=
  match cs with
  | [] => none
  | _ =>
    if cs.all Char.isDigit then
      match cs with
      | '0' :: _ :: _ => none
      | _ => some (.num (digitsToNat cs))
    else if cs.all isIdentChar then some (.str (String.mk cs))
    else none

/-- Parse every prerelease identifier group, failing if any fails. -/
def traversePre : List (List Char) → Option (List PreId)
  | [] => some []
  | g :: gs =>
    match parsePreIdent g, traversePre gs with
    | some i, some is => some (i :: is)
    | _, _ => none

/-- Whitespace trimming as performed by `semver.parse` (and by the
resolver's `.trim()` on subprocess output). -/
def trimChars (cs : List Char) : List Char :=
  ((cs.dropWhile Char.isWhitespace).reverse.dropWhile Char.isWhitespace).reverse

/-- `semver.parse`: `none` models the `null` result for a malformed
version string. -/
def semverParse (s : String) : Option SemVer :=
  let cs := trimChars s.data
  let core := cs.takeWhile (fun c => c ≠ '-')
  let rest := cs.dropWhile (fun c => c ≠ '-')
  match splitOnChar '.' core with
  | [m1, m2, m3] =>
    match parseNumericPart m1, parseNumericPart m2, parseNumericPart m3 with
    | some major, some minor, some patch =>
      match rest with
      | [] => some ⟨major, minor, patch, []⟩
      | _ :: preChars =>
        match traversePre (splitOnChar '.' preChars) with
        | some pre => some ⟨major, minor, patch, pre⟩
        | none => none
    | _, _, _ => none
  | _ => none


/-! ## The release catalog and the latest-release resolvers

`installer.ts` (`getLatestReleaseInfo` and its sibling `fetchLatestVersion`)
selects the latest release with
`releases.sort((a, b) => semver.rcompare(a.version, b.version)).at(0)` and
then `semver.parse`s the selected entry's version.  `semver.rcompare`
constructs `SemVer` objects from both raw strings and therefore throws
`Invalid Version` whenever either argument does not parse; the thrown
exception aborts the sort and propagates out of the resolver.  The sort is
modelled as insertion sort in the `Except` monad: a comparison sort calls
the comparator with every element of a list of length at least two, so the
model errors exactly when such a list contains an unparsable entry.

The older single-file variant (`fetchVersion`) sorts with the comparator
`(current, next) => current.version > next.version ? -1 : 1`, i.e. by JS
string comparison of the raw version strings, and only parses the selected
head. -/

/-- A raw catalog entry: the version string as fetched plus the
platform-key → download-url artifact map. -/
structure RawRelease where
  version : String
  artifacts : List (String × String)
deriving DecidableEq, Repr

/-- A resolved release: parsed version plus artifact map. -/
structure ReleaseInfo where
  version : SemVer
  artifacts : List (String × String)
deriving DecidableEq, Repr

/-- A thrown JS exception escaping one of the modelled operations. -/
inductive JsError where
  | invalidVersion
  | spawnError (msg : String)
deriving DecidableEq, Repr

/-- `o` is a "comparator result ≤ 0" outcome. -/
def ordIsLe (o : Ordering) : Bool :=
  match o with
  | .gt => false
  | _ => true

theorem ordIsLe_semverCompare (x y : SemVer) :
    ordIsLe (semverCompare x y) = semverGe y x := by
  rcases h : semverCompare x y with _ | _ | _ <;>
    have hsw := lawfulKeyCmp_semverCompare.swap x y <;>
    rw [h] at hsw
  · have h2 : semverCompare y x = .gt := hsw
    simp [ordIsLe, semverGe, h2]
  · have h2 : semverCompare y x = .eq := hsw
    simp [ordIsLe, semverGe, h2]
  · have h2 : semverCompare y x = .lt := hsw
    simp [ordIsLe, semverGe, h2]

/-- `semver.rcompare(a.version, b.version)`, the catalog sort comparator:
compares the parsed versions in reverse and throws `Invalid Version` if
either raw string does not parse. -/
def rcompareE (a b : RawRelease) : Except JsError Ordering :=
  match semverParse b.version, semverParse a.version with
  | some vb, some va => .ok (semverCompare vb va)
  | _, _ => .error .invalidVersion

/-- "comparator(a, b) ≤ 0" in the `Except` monad: `a` sorts no later
than `b` under the reverse-semver comparator. -/
def leE (a b : RawRelease) : Except JsError Bool := do
  let o ← rcompareE a b
  pure (ordIsLe o)

/-- The pure counterpart of `leE` on parsable entries (totalised
arbitrarily on unparsable ones, which the resolver never reaches because
`leE` throws there first). -/
def rcmpLe (a b : RawRelease) : Bool :=
  match semverParse a.version, semverParse b.version with
  | some va, some vb => ordIsLe (semverCompare vb va)
  | none, _ => true
  | some _, none => false

/-- The sort order used by the installer's resolver: descending semver. -/
def relSem (a b : RawRelease) : Prop := rcmpLe a b = true

instance : DecidableRel relSem := fun a b => instDecidableEqBool (rcmpLe a b) true

/-- An entry is parsable when its raw version string parses. -/
def parsable (r : RawRelease) : Bool := (semverParse r.version).isSome

instance : IsTotal RawRelease relSem := by
  constructor
  intro a b
  simp only [relSem, rcmpLe]
  rcases h1 : semverParse a.version with _ | va
  · left; rfl
  · rcases h2 : semverParse b.version with _ | vb
    · right; rfl
    · dsimp only
      rw [ordIsLe_semverCompare, ordIsLe_semverCompare]
      exact semverGe_total va vb

instance : IsTrans RawRelease relSem := by
  constructor
  intro a b c hab hbc
  simp only [relSem, rcmpLe] at hab hbc ⊢
  rcases h1 : semverParse a.version with _ | va
  · rfl
  · rw [h1] at hab
    rcases h2 : semverParse b.version with _ | vb
    · rw [h2] at hab
      exact Bool.noConfusion hab
    · rw [h2] at hab hbc
      rcases h3 : semverParse c.version with _ | vc
      · rw [h3] at hbc
        exact Bool.noConfusion hbc
      · rw [h3] at hbc
        dsimp only at hab hbc ⊢
        rw [ordIsLe_semverCompare] at hab hbc ⊢
        exact semverGe_trans va vb vc hab hbc

/-- `List.orderedInsert` with a comparator that can throw. -/
def orderedInsertE (le : α → α → Except ε Bool) (a : α) : List α → Except ε (List α)
  | [] => .ok [a]
  | b :: l => do
    let c ← le a b
    if c then pure (a :: b :: l)
    else do
      let r ← orderedInsertE le a l
      pure (b :: r)

/-- Insertion sort with a comparator that can throw; the model of
`Array.prototype.sort` with a throwing comparator. -/
def insertionSortE (le : α → α → Except ε Bool) : List α → Except ε (List α)
  | [] => .ok []
  | a :: l => do
    let r ← insertionSortE le l
    orderedInsertE le a r

theorem except_bind_ok (a : α) (f : α → Except ε β) :
    (Except.ok a : Except ε α) >>= f = f a := rfl

theorem except_bind_error (e : ε) (f : α → Except ε β) :
    (Except.error e : Except ε α) >>= f = .error e := rfl

theorem except_map_ok (f : α → β) (a : α) :
    f <$> (Except.ok a : Except ε α) = .ok (f a) := rfl

theorem except_map_error (f : α → β) (e : ε) :
    f <$> (Except.error e : Except ε α) = .error e := rfl

theorem except_pure (a : α) : (pure a : Except ε α) = .ok a := rfl

/-- `fetchLatestVersion` / `getLatestReleaseInfo` (installer.ts): an empty
catalog yields `null`; otherwise the entries are sorted by
`semver.rcompare` on the raw version strings (throwing on any unparsable
entry that reaches the comparator) and the head is parsed, yielding `null`
if the selected latest does not parse. -/
def fetchLatestVersion (rels : List RawRelease) : Except JsError (Option ReleaseInfo) :=
  match rels with
  | [] => .ok none
  | _ => do
    let sorted ← insertionSortE leE rels
    match sorted with
    | [] => .ok none
    | latest :: _ =>
      match semverParse latest.version with
      | some v => .ok (some ⟨v, latest.artifacts⟩)
      | none => .ok none

/-- JS string `<` on code units, as used by the legacy catalog comparator. -/
def jsStrLt (s t : String) : Bool :=
  match lexCompare charCmp s.data t.data with
  | .lt => true
  | _ => false

/-- The legacy sort order: `a` sorts before `b` iff
`(current, next) => current.version > next.version ? -1 : 1` returns `-1`,
i.e. iff `a.version` is string-greater than `b.version`. -/
def relStr (a b : RawRelease) : Prop := jsStrLt b.version a.version = true

instance : DecidableRel relStr := fun a b => instDecidableEqBool (jsStrLt b.version a.version) true

/-- `fetchVersion` (the legacy single-file variant): sorts the catalog by
string comparison of raw version strings, then parses the head (a `null`
parse fails the resolution; an empty catalog is modelled as `null`,
the code would throw reading `[0].version`). -/
def fetchVersion (rels : List RawRelease) : Option ReleaseInfo :=
  match List.insertionSort relStr rels with
  | [] => none
  | top :: _ =>
    match semverParse top.version with
    | some v => some ⟨v, top.artifacts⟩
    | none => none

theorem relSem_refl (a : RawRelease) : relSem a a := by
  simp only [relSem, rcmpLe]
  rcases h : semverParse a.version with _ | va
  · rfl
  · dsimp only
    rw [ordIsLe_semverCompare]
    exact semverGe_refl va

theorem relSem_ge {a b : RawRelease} {va vb : SemVer}
    (ha : semverParse a.version = some va) (hb : semverParse b.version = some vb)
    (h : relSem a b) : semverGe va vb = true := by
  simp only [relSem, rcmpLe, ha, hb] at h
  rw [ordIsLe_semverCompare] at h
  exact h

theorem leE_ok_of_parsable (a b : RawRelease) (ha : parsable a = true)
    (hb : parsable b = true) : leE a b = .ok (rcmpLe a b) := by
  simp only [parsable, Option.isSome_iff_exists] at ha hb
  obtain ⟨va, h1⟩ := ha
  obtain ⟨vb, h2⟩ := hb
  simp [leE, rcompareE, rcmpLe, h1, h2, Except.bind]

theorem leE_error (a b : RawRelease)
    (h : parsable a = false ∨ parsable b = false) :
    leE a b = .error .invalidVersion := by
  have hids : semverParse a.version = none ∨ semverParse b.version = none := by
    rcases h with h | h <;> [left; right] <;>
      simpa [parsable, Option.isSome_iff_exists, Option.eq_none_iff_forall_not_mem] using h
  rcases h1 : semverParse a.version with _ | va <;>
    rcases h2 : semverParse b.version with _ | vb <;>
      simp [leE, rcompareE, h1, h2, Except.bind]
  rcases hids with h | h
  · rw [h1] at h; exact Option.noConfusion h
  · rw [h2] at h; exact Option.noConfusion h

theorem orderedInsertE_ok (x : RawRelease) (l : List RawRelease)
    (hx : parsable x = true) (hl : ∀ y ∈ l, parsable y = true) :
    orderedInsertE leE x l = .ok (List.orderedInsert relSem x l) := by
  induction l with
  | nil => rfl
  | cons b t ih =>
    have hb : parsable b = true := hl b (List.mem_cons_self b t)
    have ht : ∀ y ∈ t, parsable y = true := fun y hy => hl y (List.mem_cons_of_mem b hy)
    rw [orderedInsertE, leE_ok_of_parsable x b hx hb]
    by_cases hc : rcmpLe x b = true
    · simp [except_bind_ok, except_pure, hc, List.orderedInsert, relSem]
    · simp only [Bool.not_eq_true] at hc
      simp [except_bind_ok, except_map_ok, except_pure, hc, List.orderedInsert,
        relSem, ih ht]

theorem insertionSortE_ok (l : List RawRelease)
    (hl : ∀ y ∈ l, parsable y = true) :
    insertionSortE leE l = .ok (List.insertionSort relSem l) := by
  induction l with
  | nil => rfl
  | cons a t ih =>
    have ha : parsable a = true := hl a (List.mem_cons_self a t)
    have ht : ∀ y ∈ t, parsable y = true := fun y hy => hl y (List.mem_cons_of_mem a hy)
    have hmem : ∀ y ∈ List.insertionSort relSem t, parsable y = true :=
      fun y hy => ht y ((List.perm_insertionSort relSem t).subset hy)
    rw [insertionSortE, ih ht]
    simp [except_bind_ok, List.insertionSort, orderedInsertE_ok a _ ha hmem]

theorem insertionSortE_error (l : List RawRelease) (hlen : 2 ≤ l.length)
    (hbad : ∃ y ∈ l, parsable y = false) :
    insertionSortE leE l = .error .invalidVersion := by
  induction l with
  | nil => simp at hlen
  | cons a t ih =>
    cases t with
    | nil => simp at hlen
    | cons b t2 =>
      by_cases hrest : ∃ y ∈ b :: t2, parsable y = false
      · cases t2 with
        | nil =>
          obtain ⟨y, hy, hyv⟩ := hrest
          have hyb : y = b := by simpa using hy
          subst hyb
          rw [insertionSortE, insertionSortE, insertionSortE]
          simp [except_bind_ok, except_bind_error, orderedInsertE,
            leE_error a y (Or.inr hyv)]
        | cons c t3 =>
          have herr := ih (by simp) hrest
          rw [insertionSortE, herr]
          rfl
      · have hall : ∀ y ∈ b :: t2, parsable y = true := by
          intro y hy
          rcases Bool.eq_false_or_eq_true (parsable y) with h | h
          · exact h
          · exact absurd ⟨y, hy, h⟩ hrest
        obtain ⟨y, hy, hyv⟩ := hbad
        have hya : y = a := by
          rcases List.mem_cons.mp hy with h | h
          · exact h
          · rw [hall y h] at hyv
            exact Bool.noConfusion hyv
        subst hya
        rw [insertionSortE, insertionSortE_ok _ hall]
        have hne : List.insertionSort relSem (b :: t2) ≠ [] := by
          intro hcontra
          have hlq := (List.perm_insertionSort relSem (b :: t2)).length_eq
          rw [hcontra] at hlq
          simp at hlq
        obtain ⟨z, zs, hz⟩ := List.exists_cons_of_ne_nil hne
        rw [hz]
        simp [except_bind_ok, except_bind_error, orderedInsertE,
          leE_error y z (Or.inl hyv)]

theorem insertionSort_head_max (rels : List RawRelease)
    (top : RawRelease) (t : List RawRelease)
    (h : List.insertionSort relSem rels = top :: t) :
    ∀ r ∈ rels, relSem top r := by
  have hs := List.sorted_insertionSort relSem rels
  rw [h] at hs
  intro r hr
  have hr2 : r ∈ top :: t := by
    rw [← h]
    exact ((List.perm_insertionSort relSem rels).mem_iff).mpr hr
  rcases List.mem_cons.mp hr2 with h3 | h3
  · rw [h3]
    exact relSem_refl top
  · exact List.rel_of_sorted_cons hs r h3

/-! ## Resolving the installed binary's version

`getInstalledVersion` (installer.ts) runs
`childProcess.execFileSync(binaryPath, ['--version'])` with **no**
`try`/`catch`: a spawn failure (missing or non-executable binary) throws
out of the function; otherwise the stdout buffer is decoded, trimmed and
`semver.parse`d (`null` on unparsable output).  The legacy variant
`getVersion` wraps the same body in `try { ... } catch { return null }`.
The subprocess outcome is the explicit `ProcResult` input. -/

/-- Outcome of `execFileSync`: captured stdout, or a thrown spawn error. -/
inductive ProcResult where
  | ok (stdout : String)
  | spawnError (msg : String)
deriving DecidableEq, Repr

/-- `Buffer.toString('utf8').trim()`. -/
def trimString (s : String) : String := String.mk (trimChars s.data)

/-- installer.ts `getInstalledVersion`: no `try`/`catch`, so a spawn
failure escapes as an exception; unparsable stdout yields `null`. -/
def getInstalledVersion (run : ProcResult) : Except JsError (Option SemVer) :=
  match run with
  | .spawnError m => .error (.spawnError m)
  | .ok out => .ok (semverParse (trimString out))

/-- part_003 `getVersion`: same body inside `try`/`catch`, mapping any
thrown error (spawn failure) to `null`. -/
def getVersion (run : ProcResult) : Option SemVer :=
  match run with
  | .spawnError _ => none
  | .ok out => semverParse (trimString out)

/-- What the `checkForUpdates` flow decides to do. -/
inductive UpdateDecision where
  | promptSetup
  | fetchFailed
  | upToDate
  | promptUpdate (latest : SemVer)
deriving DecidableEq, Repr

/-- installer.ts `checkForUpdates` up to the user prompt: no configured
path prompts setup (the absent state); a `null` installed version prompts
reinstall (the unknown state); otherwise the latest release is fetched and
`semver.gte(current, latest.version)` decides between "up to date" and the
update prompt.  Exceptions from `getInstalledVersion` (spawn failure) and
from the catalog sort propagate uncaught. -/
def checkForUpdates (cfgPath : Option String) (run : ProcResult)
    (rels : List RawRelease) : Except JsError UpdateDecision :=
  match cfgPath with
  | none => .ok .promptSetup
  | some _ => do
    let current ← getInstalledVersion run
    match current with
    | none => pure .promptSetup
    | some cur => do
      let latest ← fetchLatestVersion rels
      match latest with
      | none => pure .fetchFailed
      | some info =>
        if semverGe cur info.version then pure .upToDate
        else pure (.promptUpdate info.version)

/-- The resolver's view of what is installed: no configured path,
an undeterminable version, or a parsed version. -/
inductive InstalledState where
  | absent
  | unknown
  | installed (v : SemVer)
deriving DecidableEq, Repr

/-- Whether the `checkForUpdates` flow treats the installed state as
update-due: the absent and unknown branches route to the setup prompt, and
an installed version `v` is up to date exactly when
`semver.gte(v, latest)` holds. -/
def isUpdateDue : InstalledState → SemVer → Bool
  | .absent, _ => true
  | .unknown, _ => true
  | .installed v, latest => !(semverGe v latest)

/-! ## The process supervisor

The module-level `client : LanguageClient | null` handle of
`src/lsp/client.ts` (the third chunk of installer.ts) plus the transitions
`startLSP` / `stopLSP` / `isLSPRunning`.  A `Client` value carries the
outcomes of its `stop()` / `dispose()` calls and its `isRunning()` answer;
`spawns` counts the server processes spawned by `client.start()`. -/

/-- A constructed `LanguageClient` handle. -/
structure Client where
  isRunning : Bool
  stopFails : Bool
  disposeFails : Bool
deriving DecidableEq, Repr

/-- The supervisor's mutable state: the module-level handle and the number
of server processes spawned so far. -/
structure LspState where
  client : Option Client
  spawns : Nat
deriving DecidableEq, Repr

/-- The configuration and process behaviour a `startLSP` call runs under. -/
structure StartEnv where
  enabled : Bool
  newClient : Client
  startFails : Bool
deriving DecidableEq, Repr

/-- Whether the modelled call returned normally or threw. -/
inductive CallResult where
  | completed
  | threw
deriving DecidableEq, Repr

/-- `startLSP`: an existing handle logs "LSP is already running" and
returns; a disabled configuration returns; otherwise
`createAndStartClient` assigns the new `LanguageClient` to the
module-level handle and `client.start()` spawns the server process
(a failed start leaves the freshly assigned handle in place and
re-throws after logging).  The update-check step touches neither the
handle nor the spawn count and is not modelled here. -/
def startLSP (env : StartEnv) (s : LspState) : LspState × CallResult :=
  match s.client with
  | some _ => (s, .completed)
  | none =>
    if !env.enabled then (s, .completed)
    else
      let s2 : LspState := { client := some env.newClient, spawns := s.spawns + 1 }
      if env.startFails then (s2, .threw) else (s2, .completed)

/-- `stopLSP`: a `null` handle logs "LSP is not running" and returns.
Otherwise `try { await client.stop(); await client.dispose();
client = null; } catch { log }`: when `stop()` or `dispose()` rejects, the
`client = null` assignment inside the `try` block is skipped, the error is
logged, and `stopLSP` itself returns normally.  The returned flag records
whether an error was caught. -/
def stopLSP (s : LspState) : LspState × Bool :=
  match s.client with
  | none => (s, false)
  | some c =>
    if c.stopFails then (s, true)
    else if c.disposeFails then (s, true)
    else ({ s with client := none }, false)

/-- `isLSPRunning`: `client !== null && client.isRunning()`. -/
def isLSPRunning (s : LspState) : Bool :=
  match s.client with
  | none => false
  | some c => c.isRunning

/-! ## The artifact installer

The repository holds two variants of `downloadAndExtractArtifact`.  Both
proceed the same way after the download: the install directory is deleted
(the part_001 variant tolerates a missing directory), recreated, and the
archive is written into it; then `decompress` extracts **every** archive
entry into the directory; finally one entry of the returned list is
`chmod 0o755`ed and its path returned.  They differ in which entry that
is: the part_001 variant first filters the returned list by
`!file.path.includes('_')` and takes the first remaining entry, while the
utils.ts variant appended to src/config.ts — the one the install flows in
installer.ts actually call — applies **no filter** and takes `files[0]`
of the raw extracted list.  The directory contents are modelled as the
list of files with their permission bits; the downloaded archive file is
written with the default `0o644`. -/

/-- A file in the install directory: path relative to the directory and
permission bits. -/
structure ExtractedFile where
  path : String
  mode : Nat
deriving DecidableEq, Repr

/-- `path.includes('_')` for the single-character search string. -/
def hasUnderscore (s : String) : Bool := s.data.any (fun c => c = '_')

/-- The part_001 installer: takes the archive's basename and the entries
`decompress` produces, and returns the resulting directory contents plus
the returned executable path (`none` models the thrown error when the
filtered list is empty and `files[0]` is `undefined`).  The previous
directory contents are deleted unconditionally and do not appear. -/
def downloadAndExtractArtifact (archiveName : String)
    (entries : List ExtractedFile) : Option (List ExtractedFile × String) :=
  let dirAfterWrite : List ExtractedFile := [⟨archiveName, 0o644⟩]
  let dirAfterExtract := dirAfterWrite ++ entries
  let files := entries.filter (fun f => !(hasUnderscore f.path))
  match files with
  | [] => none
  | e :: _ =>
    some (dirAfterExtract.map (fun f =>
      if f.path = e.path then { f with mode := 0o755 } else f), e.path)

/-- The utils.ts installer appended to src/config.ts — the variant called
by installer.ts's install flows: identical except that **no** underscore
filter is applied, so `files[0]` of the raw extracted list is chmodded
and returned, whatever its name (`none` again models the thrown error on
an empty archive). -/
def downloadAndExtractArtifactUnfiltered (archiveName : String)
    (entries : List ExtractedFile) : Option (List ExtractedFile × String) :=
  let dirAfterWrite : List ExtractedFile := [⟨archiveName, 0o644⟩]
  let dirAfterExtract := dirAfterWrite ++ entries
  match entries with
  | [] => none
  | e :: _ =>
    some (dirAfterExtract.map (fun f =>
      if f.path = e.path then { f with mode := 0o755 } else f), e.path)

/-! ## Installing a fetched release

installer.ts `downloadAndInstallVersion`: looks up the artifact for the
current platform key (missing key reports "unsupported platform" and
returns), then runs `downloadAndExtractArtifact` inside
`try { ...; await conf.updateLSPPath(binaryPath); ... } catch
{ errorAndShow(...) }` — the settings write happens only after a
successful download-and-extract.  The download outcome is the explicit
`Except` input. -/

/-- The `c3.lsp` settings consumed and written by the installer. -/
structure Settings where
  lspPath : Option String
deriving DecidableEq, Repr

/-- What the install flow reported to the user. -/
inductive InstallReport where
  | unsupportedPlatform
  | failure
  | installed (path : String)
deriving DecidableEq, Repr

/-- `artifacts[platformKey]` on the artifact map. -/
def lookupKey (key : String) : List (String × String) → Option String
  | [] => none
  | (k, v) :: rest => if k = key then some v else lookupKey key rest

/-- installer.ts `downloadAndInstallVersion`. -/
def downloadAndInstallVersion (platformKey : String)
    (artifacts : List (String × String)) (download : Except JsError String)
    (cfg : Settings) : Settings × InstallReport :=
  match lookupKey platformKey artifacts with
  | none => (cfg, .unsupportedPlatform)
  | some _ =>
    match download with
    | .error _ => (cfg, .failure)
    | .ok binaryPath => ({ lspPath := some binaryPath }, .installed binaryPath)

/-- part_003 `installLSPVersion`: same flow without the `try`/`catch`; a
download failure propagates as a rejection and the `configuration.update`
call after the `await` never runs.  The flag records whether the
"unsupported platform" message was shown. -/
def installLSPVersion (platformKey : String)
    (artifacts : List (String × String)) (download : Except JsError String)
    (cfg : Settings) : Except JsError (Settings × Bool) :=
  match lookupKey platformKey artifacts with
  | none => .ok (cfg, true)
  | some _ =>
    match download with
    | .error e => .error e
    | .ok p => .ok ({ lspPath := some p }, false)

/-! ## The formatter bridge

`runC3FMT` builds the argument vector (an explicit `--config=<path>` or
`--default`, then `--stdout`, then the file name), spawns the formatter,
attaches `data` accumulators to stdout/stderr and `error`/`close`
handlers — and never touches `proc.stdin`.  In the part_004 variant the
`close` handler resolves the promise: exit code 0 resolves with the
accumulated stdout, a non-zero code rejects with a message carrying the
accumulated stderr, and a spawn `error` event rejects.  In the
src/format.ts variant the same values are `return`ed from the event
callbacks — which hands them to the event emitter, not to the caller — and
the `async` function body unconditionally ends with `return null`. -/

/-- How the spawned formatter process settles. -/
inductive ProcEvent where
  | spawnError (msg : String)
  | closed (exitCode : Nat) (stdout stderr : String)
deriving DecidableEq, Repr

/-- Everything `runC3FMT` does to the subprocess before it settles: the
command, the argument vector, and every interaction with the input
stream. -/
structure SpawnScript where
  cmd : String
  args : List String
  stdinWrites : List String
  stdinEnded : Bool
deriving DecidableEq, Repr

/-- The spawn performed by `runC3FMT` (both variants build the same
argument vector and neither writes to nor closes `proc.stdin`). -/
def runC3FMTSpawn (fileName path : String) (configPath : Option String) :
    SpawnScript :=
  let args : List String :=
    match configPath with
    | some cp => ["--config=" ++ cp]
    | none => ["--default"]
  let args := args ++ ["--stdout"]
  let args := args ++ [fileName]
  { cmd := path, args := args, stdinWrites := [], stdinEnded := false }

/-- part_004 `runC3FMT` promise settlement: a spawn error rejects; exit
code 0 resolves with the accumulated stdout; a non-zero exit rejects with
a message carrying the accumulated stderr. -/
def runC3FMTOutcome (ev : ProcEvent) : Except String String :=
  match ev with
  | .spawnError m => .error ("Failed to run formatter: " ++ m)
  | .closed c out err =>
    if c ≠ 0 then .error ("Formatter exited with code " ++ toString c ++ ": " ++ err)
    else .ok out

/-- The value computed inside src/format.ts's `error`/`close` callbacks
(`return null` / `return stdout`) — returned to the event emitter and
discarded. -/
def runC3FMTHandlersValue (ev : ProcEvent) : Option String :=
  match ev with
  | .spawnError _ => none
  | .closed c out _ => if c ≠ 0 then none else some out

/-- src/format.ts `runC3FMT`: the handlers' return values do not reach the
caller, and the `async` function falls through to `return null` whatever
the process does. -/
def runC3FMTFormatTs (fileName path : String) (configPath : Option String)
    (ev : ProcEvent) : Option String :=
  let _spawned := runC3FMTSpawn fileName path configPath
  let _handlers := runC3FMTHandlersValue ev
  none

/-- A formatter stub that echoes stdin to stdout and exits 0 — it reads
stdin to end-of-stream, so it only ever closes if the bridge ends the
input stream. -/
def echoFormatter (s : SpawnScript) : Option ProcEvent :=
  if s.stdinEnded then some (.closed 0 (String.join s.stdinWrites) "") else none

/-! ## Claim theorems -/

/-- C1: the formatter failure mapping.  The part_004 `runC3FMT` settles as
the claim states: a spawn error rejects without further processing, exit
code 0 resolves with the accumulated stdout, and a non-zero exit rejects
with a message carrying the accumulated stderr.  The src/format.ts
`runC3FMT`, however, resolves `null` even when the subprocess exits 0 with
output — the mapping is computed inside the event callbacks and
discarded — so `format` never returns success there: the code contradicts
its own evident intent (a code bug). -/
theorem c1_format_failure_mapping :
    (∀ m, runC3FMTOutcome (.spawnError m) =
      .error ("Failed to run formatter: " ++ m)) ∧
    (∀ out err, runC3FMTOutcome (.closed 0 out err) = .ok out) ∧
    (∀ c out err, c ≠ 0 → runC3FMTOutcome (.closed c out err) =
      .error ("Formatter exited with code " ++ toString c ++ ": " ++ err)) ∧
    runC3FMTFormatTs "main.c3" "c3fmt" none (.closed 0 "int x;" "") = none ∧
    runC3FMTHandlersValue (.closed 0 "int x;" "") = some "int x;" := by
  refine ⟨fun m => rfl, fun out err => rfl, fun c out err hc => ?_, rfl, rfl⟩
  simp [runC3FMTOutcome, hc]

/-- C1 witness: the spec's failure-mapping test case — a stub exiting with
code 1 writing `"bad input"` to standard error yields a failure carrying
`"bad input"`. -/
theorem c1_format_failure_mapping_witness :
    runC3FMTOutcome (.closed 1 "" "bad input") =
      .error "Formatter exited with code 1: bad input" :=
  c1_format_failure_mapping.2.2.1 1 "" "bad input" (by decide)

/-- C2 counterexample: the legacy `fetchVersion` sorts the catalog by JS
string comparison, so over the two-element catalog
`{1.9.0, 1.10.0}` it selects `1.9.0` — which is strictly below the
well-formed member `1.10.0` under semver precedence — refuting the claim
that every fetched catalog's selected latest is the semver maximum. -/
theorem c2_counterexample :
    fetchVersion [⟨"1.9.0", []⟩, ⟨"1.10.0", []⟩] =
      some ⟨⟨1, 9, 0, []⟩, []⟩ ∧
    semverLt ⟨1, 9, 0, []⟩ ⟨1, 10, 0, []⟩ = true := by decide

/-- C2 (amended): the installer's resolver
(`getLatestReleaseInfo`/`fetchLatestVersion`, which sorts with
`semver.rcompare`) does select the semver maximum of every non-empty
catalog of well-formed versions; only the legacy string-sorting
`fetchVersion` violates the claim. -/
theorem c2_installer_selects_semver_max :
    ∀ rels : List RawRelease, rels ≠ [] →
    (∀ r ∈ rels, parsable r = true) →
    ∃ info : ReleaseInfo, fetchLatestVersion rels = .ok (some info) ∧
      (∃ r ∈ rels, semverParse r.version = some info.version ∧
        info.artifacts = r.artifacts) ∧
      (∀ r ∈ rels, ∀ v, semverParse r.version = some v →
        semverGe info.version v = true) := by
  intro rels hne hall
  cases rels with
  | nil => exact absurd rfl hne
  | cons a t =>
    have hsorted := insertionSortE_ok (a :: t) hall
    have hne2 : List.insertionSort relSem (a :: t) ≠ [] := by
      intro hc
      have hlq := (List.perm_insertionSort relSem (a :: t)).length_eq
      rw [hc] at hlq
      simp at hlq
    obtain ⟨top, rest, htop⟩ := List.exists_cons_of_ne_nil hne2
    have htopmem : top ∈ a :: t := by
      have hmem : top ∈ List.insertionSort relSem (a :: t) := by
        rw [htop]
        exact List.mem_cons_self top rest
      exact (List.perm_insertionSort relSem (a :: t)).subset hmem
    have htopp : parsable top = true := hall top htopmem
    rw [parsable, Option.isSome_iff_exists] at htopp
    obtain ⟨vtop, hv⟩ := htopp
    refine ⟨⟨vtop, top.artifacts⟩, ?_, ⟨top, htopmem, hv, rfl⟩, ?_⟩
    · unfold fetchLatestVersion
      rw [hsorted, except_bind_ok, htop]
      dsimp only
      rw [hv]
    · intro r hr v hvr
      exact relSem_ge hv hvr (insertionSort_head_max (a :: t) top rest htop r hr)

/-- C2 witness: over the catalog `{1.9.0, 2.0.0-beta, 1.10.0}` the
installer's resolver selects a release at least every member under
semver precedence. -/
theorem c2_installer_selects_semver_max_witness :
    ∃ info : ReleaseInfo,
      fetchLatestVersion [⟨"1.9.0", []⟩, ⟨"2.0.0-beta", []⟩, ⟨"1.10.0", []⟩] =
        .ok (some info) ∧
      (∃ r ∈ ([⟨"1.9.0", []⟩, ⟨"2.0.0-beta", []⟩, ⟨"1.10.0", []⟩] :
          List RawRelease), semverParse r.version = some info.version ∧
        info.artifacts = r.artifacts) ∧
      (∀ r ∈ ([⟨"1.9.0", []⟩, ⟨"2.0.0-beta", []⟩, ⟨"1.10.0", []⟩] :
          List RawRelease), ∀ v, semverParse r.version = some v →
        semverGe info.version v = true) :=
  c2_installer_selects_semver_max _ (by decide) (by decide)

/-- C3 counterexample: a running client whose `stop()` rejects.  After
`stopLSP` the handle is still held (`client` is not `null`) even though
`stopLSP` returned normally having caught the error — the state is not
`Stopped`, refuting the claim that `stop()` always releases the handle. -/
theorem c3_counterexample :
    (stopLSP ⟨some ⟨true, true, false⟩, 1⟩).1.client =
      some ⟨true, true, false⟩ ∧
    (stopLSP ⟨some ⟨true, true, false⟩, 1⟩).2 = true := by decide

/-- C3 (amended): `stopLSP` releases the handle (sets it to `null`) iff
both `client.stop()` and `client.dispose()` succeed; when either rejects
the error is caught and logged and the handle remains held (the
`client = null` assignment sits inside the `try` block after both
awaits).  Stopping from the `Stopped` state is a no-op. -/
theorem c3_stop_cleanup :
    ∀ (c : Client) (n : Nat),
      ((stopLSP ⟨some c, n⟩).1.client = none ↔
        (c.stopFails = false ∧ c.disposeFails = false)) ∧
      (stopLSP ⟨some c, n⟩).2 = (c.stopFails || c.disposeFails) ∧
      stopLSP ⟨none, n⟩ = (⟨none, n⟩, false) := by
  intro c n
  rcases c with ⟨r, sf, df⟩
  cases sf <;> cases df <;> simp [stopLSP]

/-- C4 counterexample: a binary path whose process fails to spawn.
installer.ts's `getInstalledVersion` has no `try`/`catch` around
`execFileSync`, so the spawn error propagates uncaught out of the
resolver (`checkForUpdates` rejects), refuting the claim that version
resolution never throws uncaught. -/
theorem c4_counterexample :
    getInstalledVersion (.spawnError "ENOENT") =
      .error (.spawnError "ENOENT") ∧
    checkForUpdates (some "/usr/bin/c3lsp") (.spawnError "ENOENT") [] =
      .error (.spawnError "ENOENT") := ⟨rfl, rfl⟩

/-- C4 (amended): with no configured path the flow returns the absent
outcome (setup prompt) without running anything; unparsable stdout yields
the unknown outcome (`null`) in both resolver variants; a spawn failure is
mapped to unknown only by the legacy `getVersion` (which wraps the body in
`try`/`catch`) — installer.ts's `getInstalledVersion` lets it escape as an
uncaught exception. -/
theorem c4_version_resolution :
    (∀ run rels, checkForUpdates none run rels = .ok .promptSetup) ∧
    getInstalledVersion (.ok "not a version") = .ok none ∧
    getVersion (.ok "not a version") = none ∧
    (∀ m, getVersion (.spawnError m) = none) ∧
    (∀ m, getInstalledVersion (.spawnError m) = .error (.spawnError m)) := by
  have h : semverParse (trimString "not a version") = none := by decide
  refine ⟨fun run rels => rfl, ?_, ?_, fun m => rfl, fun m => rfl⟩
  · show Except.ok (semverParse (trimString "not a version")) = .ok none
    rw [h]
  · show semverParse (trimString "not a version") = none
    exact h

/-- C5 counterexample: installing an archive containing the entries
`c3lsp` and `LICENSE_MIT` succeeds, and the resulting directory still
contains the underscore-named auxiliary file `LICENSE_MIT` (as well as the
downloaded archive file): `decompress` extracts every entry into the
directory and the underscore filter is applied only to the returned list
used to pick the executable — refuting the claim that the directory
contains no auxiliary files whose name contains an underscore. -/
theorem c5_counterexample :
    downloadAndExtractArtifact "c3lsp.zip"
        [⟨"c3lsp", 0o644⟩, ⟨"LICENSE_MIT", 0o644⟩] =
      some ([⟨"c3lsp.zip", 0o644⟩, ⟨"c3lsp", 0o755⟩, ⟨"LICENSE_MIT", 0o644⟩],
        "c3lsp") ∧
    hasUnderscore "LICENSE_MIT" = true := by decide

/-- C5 (amended): after a successful install the directory retains the
downloaded archive and every extracted entry — underscore-named auxiliary
files included — and exactly the entries sharing the selected path get
permission bits 0755.  Which entry is selected as the primary binary
depends on the variant: the part_001 installer takes the first entry
after filtering out underscore-named entries, so its name contains no
underscore; the src/config.ts installer — the one installer.ts's install
flows call — applies no filter and chmods and returns the raw first
extracted entry, which can itself be an underscore-named auxiliary file
such as `LICENSE_MIT`. -/
theorem c5_install_contents :
    (∀ (archiveName : String) (entries : List ExtractedFile)
      (e : ExtractedFile) (rest : List ExtractedFile),
      entries.filter (fun f => !(hasUnderscore f.path)) = e :: rest →
      ∃ dir, downloadAndExtractArtifact archiveName entries = some (dir, e.path) ∧
        (⟨e.path, 0o755⟩ : ExtractedFile) ∈ dir ∧
        hasUnderscore e.path = false ∧
        (∀ f ∈ entries, hasUnderscore f.path = true → f ∈ dir)) ∧
    (∀ (archiveName : String) (e : ExtractedFile) (rest : List ExtractedFile),
      ∃ dir, downloadAndExtractArtifactUnfiltered archiveName (e :: rest) =
          some (dir, e.path) ∧
        (⟨e.path, 0o755⟩ : ExtractedFile) ∈ dir ∧
        (∀ f ∈ e :: rest, f.path ≠ e.path → f ∈ dir)) ∧
    (downloadAndExtractArtifactUnfiltered "c3lsp.zip"
        [⟨"LICENSE_MIT", 0o644⟩, ⟨"c3lsp", 0o644⟩] =
      some ([⟨"c3lsp.zip", 0o644⟩, ⟨"LICENSE_MIT", 0o755⟩, ⟨"c3lsp", 0o644⟩],
        "LICENSE_MIT") ∧
      hasUnderscore "LICENSE_MIT" = true) := by
  refine ⟨?_, ?_, by decide⟩
  · intro archiveName entries e rest hfil
    have hememf : e ∈ entries.filter (fun f => !(hasUnderscore f.path)) := by
      rw [hfil]
      exact List.mem_cons_self e rest
    have hem := List.mem_filter.mp hememf
    have hnue : hasUnderscore e.path = false := by
      have h2 := hem.2
      simp only [Bool.not_eq_true'] at h2
      exact h2
    let g : ExtractedFile → ExtractedFile := fun f =>
      if f.path = e.path then { f with mode := 0o755 } else f
    refine ⟨(⟨archiveName, 0o644⟩ :: entries).map g, ?_, ?_, hnue, ?_⟩
    · unfold downloadAndExtractArtifact
      rw [hfil]
      rfl
    · have hge : g e = ⟨e.path, 0o755⟩ := by simp [g]
      have hmem := List.mem_map_of_mem g (List.mem_cons_of_mem
        (⟨archiveName, 0o644⟩ : ExtractedFile) hem.1)
      rwa [hge] at hmem
    · intro f hf hu
      have hfe : f.path ≠ e.path := by
        intro hq
        rw [hq, hnue] at hu
        exact Bool.noConfusion hu
      have hgf : g f = f := by simp [g, hfe]
      have hmem := List.mem_map_of_mem g (List.mem_cons_of_mem
        (⟨archiveName, 0o644⟩ : ExtractedFile) hf)
      rwa [hgf] at hmem
  · intro archiveName e rest
    let g : ExtractedFile → ExtractedFile := fun f =>
      if f.path = e.path then { f with mode := 0o755 } else f
    refine ⟨(⟨archiveName, 0o644⟩ :: e :: rest).map g, ?_, ?_, ?_⟩
    · rfl
    · have hge : g e = ⟨e.path, 0o755⟩ := by simp [g]
      have hmem := List.mem_map_of_mem g (List.mem_cons_of_mem
        (⟨archiveName, 0o644⟩ : ExtractedFile) (List.mem_cons_self e rest))
      rwa [hge] at hmem
    · intro f hf hfe
      have hgf : g f = f := by simp [g, hfe]
      have hmem := List.mem_map_of_mem g (List.mem_cons_of_mem
        (⟨archiveName, 0o644⟩ : ExtractedFile) hf)
      rwa [hgf] at hmem

/-- C5 witness: the amended statement evaluated on concrete archives —
the filtering part_001 variant on `{c3lsp, LICENSE_MIT}` selects `c3lsp`,
and the unfiltered src/config.ts variant on the reordered archive
`{LICENSE_MIT, c3lsp}` selects and chmods `LICENSE_MIT`. -/
theorem c5_install_contents_witness :
    (∃ dir, downloadAndExtractArtifact "c3lsp.zip"
        [⟨"c3lsp", 0o644⟩, ⟨"LICENSE_MIT", 0o644⟩] = some (dir, "c3lsp") ∧
      (⟨"c3lsp", 0o755⟩ : ExtractedFile) ∈ dir ∧
      hasUnderscore "c3lsp" = false ∧
      (∀ f ∈ ([⟨"c3lsp", 0o644⟩, ⟨"LICENSE_MIT", 0o644⟩] : List ExtractedFile),
        hasUnderscore f.path = true → f ∈ dir)) ∧
    (∃ dir, downloadAndExtractArtifactUnfiltered "c3lsp.zip"
        [⟨"LICENSE_MIT", 0o644⟩, ⟨"c3lsp", 0o644⟩] = some (dir, "LICENSE_MIT") ∧
      (⟨"LICENSE_MIT", 0o755⟩ : ExtractedFile) ∈ dir ∧
      (∀ f ∈ ([⟨"LICENSE_MIT", 0o644⟩, ⟨"c3lsp", 0o644⟩] : List ExtractedFile),
        f.path ≠ "LICENSE_MIT" → f ∈ dir)) :=
  ⟨c5_install_contents.1 "c3lsp.zip" _ ⟨"c3lsp", 0o644⟩ [] (by decide),
    c5_install_contents.2.1 "c3lsp.zip" ⟨"LICENSE_MIT", 0o644⟩ [⟨"c3lsp", 0o644⟩]⟩

/-- C6: the update decision.  Both the absent state (no configured path)
and the unknown state (undeterminable version) are update-due; an
installed version is never due against itself; and for well-formed
versions an update is due exactly when the installed version is strictly
below the latest under semver precedence
(`!semver.gte(current, latest)`). -/
theorem c6_update_due :
    ∀ (v w : SemVer),
      isUpdateDue .absent w = true ∧
      isUpdateDue .unknown w = true ∧
      isUpdateDue (.installed v) v = false ∧
      (isUpdateDue (.installed v) w = true ↔ semverLt v w = true) := by
  intro v w
  refine ⟨rfl, rfl, ?_, ?_⟩
  · simp [isUpdateDue, semverGe_refl]
  · simp only [isUpdateDue]
    cases hg : semverGe v w with
    | false => simp [(semverGe_false_iff_lt v w).mp hg]
    | true =>
      have hlt : semverLt v w = false := by
        cases hl : semverLt v w with
        | false => rfl
        | true =>
          rw [(semverGe_false_iff_lt v w).mpr hl] at hg
          exact Bool.noConfusion hg
      simp [hlt]

/-- C7 counterexample: for a format request on `main.c3` the bridge
performs no write to the subprocess's input stream and never closes it
(the source text is not even passed to `runC3FMT`, which receives the file
path instead); consequently the echoing formatter stub never reaches
end-of-stream and never closes, so `format` cannot yield
`success("int x;")` — refuting the claim. -/
theorem c7_counterexample :
    (runC3FMTSpawn "main.c3" "c3fmt" none).stdinWrites = [] ∧
    (runC3FMTSpawn "main.c3" "c3fmt" none).stdinEnded = false ∧
    echoFormatter (runC3FMTSpawn "main.c3" "c3fmt" none) = none := by decide

/-- C7 (amended): the bridge never writes to nor closes the formatter's
input stream; instead it passes the document's file path as the final
argument (after the style flag and `--stdout`), and the formatted text is
the accumulated stdout returned as success when the process closes with
exit code 0. -/
theorem c7_bridge_passes_filename :
    ∀ (fileName path : String) (configPath : Option String),
      (runC3FMTSpawn fileName path configPath).stdinWrites = [] ∧
      (runC3FMTSpawn fileName path configPath).stdinEnded = false ∧
      (∃ pre, (runC3FMTSpawn fileName path configPath).args =
        pre ++ ["--stdout", fileName]) ∧
      (∀ out err, runC3FMTOutcome (.closed 0 out err) = .ok out) := by
  intro f p cp
  refine ⟨rfl, rfl, ?_, fun out err => rfl⟩
  cases cp with
  | none => exact ⟨["--default"], rfl⟩
  | some c => exact ⟨["--config=" ++ c], rfl⟩

/-- C8: single-flight supervision.  A start request while a client handle
is held returns unchanged state — same handle, same spawn count (no second
process), no exception — so `isLSPRunning` keeps answering from the same
handle; and a stop request in the `Stopped` state (no handle) is a
state-preserving no-op. -/
theorem c8_single_flight :
    ∀ (env : StartEnv) (c : Client) (n : Nat),
      startLSP env ⟨some c, n⟩ = (⟨some c, n⟩, .completed) ∧
      isLSPRunning ⟨some c, n⟩ = c.isRunning ∧
      stopLSP ⟨none, n⟩ = (⟨none, n⟩, false) :=
  fun _ _ _ => ⟨rfl, rfl, rfl⟩

/-- C9 counterexample: a catalog holding a well-formed entry `1.0.0` and a
malformed entry `oops`.  The malformed entry is not dropped: it reaches
the `semver.rcompare` comparator during the sort, which throws
`Invalid Version`, failing the whole fetch — refuting the claim that
unparsable entries are dropped without failing the fetch. -/
theorem c9_counterexample :
    fetchLatestVersion [⟨"1.0.0", []⟩, ⟨"oops", []⟩] =
      .error .invalidVersion := by rfl

/-- C9 (amended): no entry is ever dropped.  In a catalog of at least two
entries any unparsable entry reaches the comparator and the whole fetch
throws `Invalid Version`; the `null` (MalformedCatalog) result arises when
the catalog is empty or when the selected latest is unparsable — reachable
only as the sole entry of a singleton catalog, which the sort never
compares; all-parsable catalogs resolve normally. -/
theorem c9_catalog_parse_failures :
    (∀ rels : List RawRelease, 2 ≤ rels.length →
      (∃ r ∈ rels, parsable r = false) →
      fetchLatestVersion rels = .error .invalidVersion) ∧
    (∀ r : RawRelease, parsable r = false →
      fetchLatestVersion [r] = .ok none) ∧
    fetchLatestVersion [] = .ok none := by
  refine ⟨?_, ?_, rfl⟩
  · intro rels hlen hbad
    cases rels with
    | nil => simp at hlen
    | cons a t =>
      unfold fetchLatestVersion
      rw [insertionSortE_error (a :: t) hlen hbad]
      rfl
  · intro r hr
    have hp : semverParse r.version = none := by
      rcases hq : semverParse r.version with _ | v
      · rfl
      · rw [parsable, hq] at hr
        exact Bool.noConfusion hr
    unfold fetchLatestVersion
    have h1 : insertionSortE leE [r] = .ok [r] := rfl
    rw [h1, except_bind_ok]
    dsimp only
    rw [hp]

/-- C9 witness: a two-entry catalog with one malformed entry throws, and a
singleton catalog whose only entry is malformed resolves to `null`. -/
theorem c9_catalog_parse_failures_witness :
    fetchLatestVersion [⟨"2.0.0", []⟩, ⟨"bogus", []⟩] =
      .error .invalidVersion ∧
    fetchLatestVersion [⟨"bogus", []⟩] = .ok none :=
  ⟨c9_catalog_parse_failures.1 _ (by decide) ⟨⟨"bogus", []⟩, by decide, by decide⟩,
    c9_catalog_parse_failures.2.1 _ (by decide)⟩

/-- C10: the configured LSP path is written only after
`downloadAndExtractArtifact` completes successfully: a throwing install
leaves the settings unchanged and reports the failure
(`errorAndShow` in the `catch` block), a missing platform artifact
reports "unsupported platform" without touching the settings, and a
successful install writes exactly the new executable path.  The legacy
`installLSPVersion` (no `try`/`catch`) likewise never writes on a download
failure — the rejection propagates before the `configuration.update`
call. -/
theorem c10_config_written_only_on_success :
    ∀ (pk : String) (arts : List (String × String)) (cfg : Settings)
      (e : JsError) (p : String),
      (downloadAndInstallVersion pk arts (.error e) cfg).1 = cfg ∧
      (lookupKey pk arts ≠ none →
        downloadAndInstallVersion pk arts (.error e) cfg = (cfg, .failure)) ∧
      (lookupKey pk arts ≠ none →
        downloadAndInstallVersion pk arts (.ok p) cfg =
          ({ lspPath := some p }, .installed p)) ∧
      (lookupKey pk arts = none →
        downloadAndInstallVersion pk arts (.ok p) cfg =
          (cfg, .unsupportedPlatform)) ∧
      (installLSPVersion pk arts (.error e) cfg = .error e ∨
        installLSPVersion pk arts (.error e) cfg = .ok (cfg, true)) := by
  intro pk arts cfg e p
  rcases hk : lookupKey pk arts with _ | url <;>
    simp [downloadAndInstallVersion, installLSPVersion, hk]

/-- C10 witness: a failing download leaves the previously configured path
in place and reports failure; a successful one writes the new path. -/
theorem c10_config_written_only_on_success_witness :
    downloadAndInstallVersion "x86_64-linux" [("x86_64-linux", "u")]
        (.error .invalidVersion) ⟨some "/old/c3lsp"⟩ =
      (⟨some "/old/c3lsp"⟩, .failure) ∧
    downloadAndInstallVersion "x86_64-linux" [("x86_64-linux", "u")]
        (.ok "/new/c3lsp") ⟨some "/old/c3lsp"⟩ =
      (⟨some "/new/c3lsp"⟩, .installed "/new/c3lsp") :=
  ⟨(c10_config_written_only_on_success "x86_64-linux" [("x86_64-linux", "u")]
      ⟨some "/old/c3lsp"⟩ .invalidVersion "/new/c3lsp").2.1 (by decide),
    (c10_config_written_only_on_success "x86_64-linux" [("x86_64-linux", "u")]
      ⟨some "/old/c3lsp"⟩ .invalidVersion "/new/c3lsp").2.2.1 (by decide)⟩

end VscodeC3
